import Mathlib

namespace NefToJpg

/-! ## Definitions -/

/-!
Verification of the NEF-to-JPG conversion pipeline (`scripts/nef_to_jpg.py`).

The development shallowly embeds the pure data and control flow:
* `FsPath` models a `pathlib.Path` whose final component splits into a
  dot-free stem plus a suffix (the extension, including its dot); directories
  are the list of parent components.
* The filesystem is a finite association list from paths to byte lists;
  directory creation (`mkdir`) is not represented since no verified property
  mentions directories.
* External libraries (rawpy, PIL, exifread) are oracles supplied through an
  `Ext` structure: their outcomes on the one input file under conversion are
  parameters, while all repository-owned logic is translated directly.
-/
/-- Byte buffers (`bytes` in Python) as lists of naturals. -/
abbrev Bytes := List Nat

/-- Decoded pixel buffers (numpy RGB arrays handed to PIL) as row lists. -/
abbrev Img := List (List Nat)

/-- Model of a `pathlib.Path`: parent components, dot-free stem, suffix. -/
structure FsPath where
  dir : List String
  stem : String
  suffix : String
deriving DecidableEq

/-- Model of `Path.with_suffix`: replace the extension. -/
def FsPath.withSuffix (p : FsPath) (s : String) : FsPath := { p with suffix := s }

/-- The candidate produced in the loop body of `unique_path`:
`base.with_name(f"\x7bbase.name\x7d_\x7bi\x7d").with_suffix(suffix)`. -/
def candidate (base : FsPath) (suffix : String) (i : Nat) : FsPath :=
  { dir := base.dir, stem := base.stem ++ "_" ++ Nat.repr i, suffix := suffix }

/-- The `while True` loop of `unique_path`, testing candidates `i`, `i+1`, ….
The loop in the source is unbounded; here it carries fuel, and
`candidate_free_within` below shows that fuel `existing.length + 1` always
suffices, so the fallback arm for exhausted fuel is unreachable. -/
def uniquePathGo (existing : List FsPath) (base : FsPath) (suffix : String) :
    Nat → Nat → FsPath
  | 0, i => candidate base suffix i
  | fuel+1, i =>
    if candidate base suffix i ∈ existing then
      uniquePathGo existing base suffix fuel (i+1)
    else candidate base suffix i

/-- Model of `unique_path`: existence tests are membership in the list
`existing` of paths currently present on disk. -/
def unique_path (existing : List FsPath) (path : FsPath) : FsPath :=
  if path ∈ existing then
    uniquePathGo existing (path.withSuffix "") path.suffix (existing.length + 1) 1
  else path

/-! ### Injectivity of decimal rendering

`unique_path` terminates because the candidate names `stem_1`, `stem_2`, …
are pairwise distinct; this rests on injectivity of `Nat.repr`, proved here
by parsing the digit string back. -/
/-- Inverse of `Nat.digitChar` on decimal digits. -/
def digitVal (c : Char) : Nat :=
  if c = '0' then 0 else if c = '1' then 1 else if c = '2' then 2
  else if c = '3' then 3 else if c = '4' then 4 else if c = '5' then 5
  else if c = '6' then 6 else if c = '7' then 7 else if c = '8' then 8 else 9

/-- Value of a most-significant-first digit string, on top of accumulator `a`. -/
def digitsValFrom (a : Nat) (cs : List Char) : Nat :=
  cs.foldl (fun b c => 10 * b + digitVal c) a

/-- Structural-recursion form of the decimal digit list of `n`. -/
def natDigits (n : Nat) : List Char :=
  if n < 10 then [Nat.digitChar n]
  else natDigits (n / 10) ++ [Nat.digitChar (n % 10)]
decreasing_by exact Nat.div_lt_self (by omega) (by omega)

/-! ### Embedded-JPEG scanner (`_try_scan_embedded_jpeg`) -/
/-- The 3-byte JPEG start-of-image marker `b"\xFF\xD8\xFF"`. -/
def soi : List Nat := [0xFF, 0xD8, 0xFF]

/-- The 2-byte JPEG end-of-image marker `b"\xFF\xD9"`. -/
def eoi : List Nat := [0xFF, 0xD9]

/-- The pattern `pat` occurs in `data` at offset `j`. -/
def matchesAt (data pat : List Nat) (j : Nat) : Bool :=
  decide ((data.drop j).take pat.length = pat)

/-- Linear search loop underlying `bytes.find(pat, i)`. -/
def findFrom (p : Nat → Bool) : Nat → Nat → Option Nat
  | 0, _ => none
  | fuel+1, i => if p i then some i else findFrom p fuel (i + 1)

/-- Model of `data.find(pat, i)`: the least offset `j ≥ i` at which `pat`
occurs in `data` (`none` standing for the Python result `-1`). -/
def findSub (data pat : List Nat) (i : Nat) : Option Nat :=
  findFrom (matchesAt data pat) (data.length + 1 - i) i

/-- The start-marker collection loop of `_try_scan_embedded_jpeg`:
`i = 0; while True: j = data.find(soi, i); if j == -1: break;
starts.append(j); i = j + 1`. -/
def scanStarts (data : List Nat) : Nat → Nat → List Nat
  | 0, _ => []
  | fuel+1, i =>
    match findSub data soi i with
    | none => []
    | some j => j :: scanStarts data fuel (j + 1)

/-- The candidate ranges `(s, j + len(eoi))` recorded for each collected
start `s` whose forward end-marker search from `s + 2` succeeds. -/
def scanCandidates (data : List Nat) : List (Nat × Nat) :=
  (scanStarts data (data.length + 1) 0).filterMap
    (fun s => (findSub data eoi (s + 2)).map (fun j => (s, j + eoi.length)))

/-- Python `max(x :: ys, key=f)`: the first element attaining the
maximal key (replacement only on strict increase). -/
def pyMaxBy {α : Type} (f : α → Nat) : α → List α → α
  | x, [] => x
  | x, y :: ys => if f y > f x then pyMaxBy f y ys else pyMaxBy f x ys

/-- The selection core of `_try_scan_embedded_jpeg`: the chosen candidate
range, with exclusive end offset, or `none` when no marker pair exists
(the caller then writes `data[s:e]` for the chosen `(s, e)`). -/
def scanEmbedded (data : List Nat) : Option (Nat × Nat) :=
  match scanCandidates data with
  | [] => none
  | c :: cs => some (pyMaxBy (fun p => p.2 - p.1) c cs)

/-- Sample buffer for the C2 witness: two marker-delimited spans, of lengths
5 (`[0, 5)`) and 8 (`[5, 13)`). -/
def sampleScanData : List Nat :=
  [0xFF, 0xD8, 0xFF, 0xFF, 0xD9, 0xFF, 0xD8, 0xFF, 0, 0, 0, 0xFF, 0xD9]

/-! ### Filesystem and external-library model -/
/-- Filesystem contents: an association list from paths to byte contents.
Writes cons at the front; `read` takes the first match. -/
abbrev FS := List (FsPath × Bytes)

/-- The set of paths that currently exist. -/
def FS.paths (fs : FS) : List FsPath := fs.map Prod.fst

/-- Contents of the file at `p`, if it exists. -/
def FS.read (fs : FS) (p : FsPath) : Option Bytes :=
  (fs.find? (fun e => e.1 == p)).map Prod.snd

/-- Create the file at `p` with contents `b` (`open(p, "wb")` plus write). -/
def FS.write (fs : FS) (p : FsPath) (b : Bytes) : FS := (p, b) :: fs

/-- Result of `exifread.process_file`: a tag table, or a raised exception. -/
inductive ExifResult
  | tags (t : List (String × String))
  | error

/-- Embedded thumbnail object returned by `raw.extract_thumb()`: either
already-JPEG-encoded bytes (`ThumbFormat.JPEG`) or a raw pixel array. -/
inductive ThumbData
  | jpeg (data : Bytes)
  | rgbArray (data : Img)

/-- Behaviors of an opened `rawpy` handle on the input file: the two
`postprocess` renderings (full resolution, and `half_size=True`) and
`extract_thumb`; an `error` value models a raised exception. -/
structure RawBehavior where
  postprocessFull : Except String Img
  postprocessHalf : Except String Img
  extractThumb : Except String ThumbData

/-- Oracles for the external libraries on the file under conversion:
`rawpy.imread`, the PIL JPEG encoder at the fixed script settings
(`optimize=True, subsampling=0`) as a function of image and quality,
and `exifread`. -/
structure Ext where
  imread : Except String RawBehavior
  encodeJPEG : Img → Nat → Bytes
  readExif : Bytes → ExifResult

/-! ### Orientation correction (`_save_jpeg_array`) -/
/-- PIL `img.rotate(180, expand=True)`. -/
def rotate180 (img : Img) : Img := (img.map List.reverse).reverse

/-- PIL `img.rotate(90, expand=True)`: a counter-clockwise quarter turn. -/
def rotate90 (img : Img) : Img := img.transpose.reverse

/-- PIL `img.rotate(270, expand=True)`: a clockwise quarter turn. -/
def rotate270 (img : Img) : Img := img.transpose.map List.reverse

/-- PIL `img.transpose(Image.FLIP_LEFT_RIGHT)`: horizontal flip. -/
def flipLR (img : Img) : Img := img.map List.reverse

/-- PIL `img.transpose(Image.FLIP_TOP_BOTTOM)`: vertical flip. -/
def flipTB (img : Img) : Img := img.reverse

/-- The orientation `if/elif` chain of `_save_jpeg_array`, applied to the
string form of the `Image Orientation` tag when one was obtained. -/
def applyOrientation : Option String → Img → Img
  | none, img => img
  | some val, img =>
    if val = "Rotated 180" then rotate180 img
    else if val = "Rotated 90 CW" then rotate270 img
    else if val = "Rotated 90 CCW" then rotate90 img
    else if val = "Mirrored" then flipLR img
    else if val = "Mirrored horizontal and rotated 90 CW" then rotate270 (flipTB img)
    else if val = "Mirrored horizontal and rotated 90 CCW" then rotate90 (flipTB img)
    else if val = "Mirrored vertical" then flipTB img
    else img

/-- The path `_save_jpeg_array` reads EXIF metadata from:
`out_path.with_suffix(".nef")`, i.e. derived from the output location. -/
def exifSourcePath (out_path : FsPath) : FsPath := out_path.withSuffix ".nef"

/-- The orientation value obtained inside the `try` block of `_save_jpeg_array`:
`none` when the `.nef` sibling of the output path does not exist, when
`exifread` raises, or when the tag table lacks an `Image Orientation` key. -/
def exifOrientation (ext : Ext) (fs : FS) (out_path : FsPath) : Option String :=
  match FS.read fs (exifSourcePath out_path) with
  | none => none
  | some b =>
    match ext.readExif b with
    | ExifResult.error => none
    | ExifResult.tags t => (t.find? (fun e => e.1 == "Image Orientation")).map Prod.snd

/-- Model of `_save_jpeg_array`: best-effort orientation correction, then a
collision-avoided JPEG write at the given quality. Returns the updated
filesystem and the target written (`mkdir` is not represented). -/
def save_jpeg_array (ext : Ext) (fs : FS) (arr : Img) (out_path : FsPath)
    (quality : Nat) : FS × FsPath :=
  let img := applyOrientation (exifOrientation ext fs out_path) arr
  let target := unique_path (FS.paths fs) (out_path.withSuffix ".jpg")
  (FS.write fs target (ext.encodeJPEG img quality), target)

/-- The seven orientation codes the corrector recognizes. -/
def recognizedOrientations : List String :=
  ["Rotated 180", "Rotated 90 CW", "Rotated 90 CCW", "Mirrored",
   "Mirrored horizontal and rotated 90 CW",
   "Mirrored horizontal and rotated 90 CCW", "Mirrored vertical"]

/-! ### Strategy steps and the conversion chain -/
/-- Exception discriminator for the oracle results. -/
def isError {α : Type} : Except String α → Bool
  | Except.error _ => true
  | Except.ok _ => false

/-- Model of `_try_raw_full`: full-resolution `postprocess` (auto white
balance on, auto brightening off, 8-bit output, custom gamma) then
`_save_jpeg_array`; an exception yields `None` and leaves the filesystem
untouched. -/
def try_raw_full (ext : Ext) (rb : RawBehavior) (fs : FS) (out_path : FsPath)
    (quality : Nat) : FS × Option FsPath :=
  match rb.postprocessFull with
  | Except.error _ => (fs, none)
  | Except.ok rgb =>
    let r := save_jpeg_array ext fs rgb out_path quality
    (r.1, some r.2)

/-- Model of `_try_raw_half`: `postprocess` with `half_size=True`, then
`_save_jpeg_array`; an exception yields `None`. -/
def try_raw_half (ext : Ext) (rb : RawBehavior) (fs : FS) (out_path : FsPath)
    (quality : Nat) : FS × Option FsPath :=
  match rb.postprocessHalf with
  | Except.error _ => (fs, none)
  | Except.ok rgb =>
    let r := save_jpeg_array ext fs rgb out_path quality
    (r.1, some r.2)

/-- Model of `_try_libraw_thumb`: extract the embedded preview; a JPEG
preview is written byte-for-byte to a collision-avoided target, a pixel
preview goes through `_save_jpeg_array` at fixed quality 90; an exception
yields `None`. -/
def try_libraw_thumb (ext : Ext) (rb : RawBehavior) (fs : FS)
    (out_path : FsPath) : FS × Option FsPath :=
  match rb.extractThumb with
  | Except.error _ => (fs, none)
  | Except.ok (ThumbData.jpeg data) =>
    let target := unique_path (FS.paths fs) (out_path.withSuffix ".jpg")
    (FS.write fs target data, some target)
  | Except.ok (ThumbData.rgbArray a) =>
    let r := save_jpeg_array ext fs a out_path 90
    (r.1, some r.2)

/-- Model of `_try_scan_embedded_jpeg`: read the input bytes, scan for the
largest marker-delimited range, and write that `data[s:e]` slice. A read
failure is a raised `IOError` (`Except.error`, uncaught in the chain); no
candidate is the normal `None`. -/
def try_scan_embedded_jpeg (fs : FS) (in_path out_path : FsPath) :
    Except String (FS × Option FsPath) :=
  match FS.read fs in_path with
  | none => Except.error "read_bytes failed"
  | some data =>
    match scanEmbedded data with
    | none => Except.ok (fs, none)
    | some c =>
      let target := unique_path (FS.paths fs) (out_path.withSuffix ".jpg")
      Except.ok (FS.write fs target ((data.drop c.1).take (c.2 - c.1)), some target)

/-- The byte-scan step finds a candidate in the input file. -/
def scanFinds (fs : FS) (in_path : FsPath) : Bool :=
  match FS.read fs in_path with
  | none => false
  | some data => (scanEmbedded data).isSome

/-- Tags for the four strategy helpers, in chain order. -/
inductive Strategy
  | rawFull
  | rawHalf
  | librawThumb
  | scanEmbeddedJpeg
deriving DecidableEq

/-- Result of one `convert_nef_to_jpg` call: the final filesystem, the
strategy helpers invoked in order, the outcome (`ok` for a normal return,
`error e` for a `RuntimeError`/`IOError` propagating to the caller), and
the console lines gated by `verbose`. -/
structure ConvOut where
  fs : FS
  trace : List Strategy
  outcome : Except String Unit
  log : List String

/-- Model of `convert_nef_to_jpg`. The `try`/`except` around the `rawpy`
block catches both an `imread` failure and the deliberate `raise` in
RAW-only mode; control then falls through to the embedded phase, which only
runs for `auto`/`embedded` modes. -/
def convert_nef_to_jpg (ext : Ext) (fs : FS) (in_path out_path0 : FsPath)
    (quality : Nat) (mode : String) (verbose : Bool) : ConvOut :=
  let log0 : List String := if verbose then ["Converting"] else []
  let out_path := out_path0.withSuffix ".jpg"
  let phase1 : ConvOut ⊕ (List Strategy × List String) :=
    if mode = "auto" ∨ mode = "raw" then
      match ext.imread with
      | Except.error e =>
        Sum.inr ([], log0 ++ (if verbose then ["RAW open/processing failed: " ++ e] else []))
      | Except.ok rb =>
        let log1 := log0 ++ (if verbose then ["Trying RAW full postprocess"] else [])
        let r1 := try_raw_full ext rb fs out_path quality
        match r1.2 with
        | some _ => Sum.inl ⟨r1.1, [Strategy.rawFull], Except.ok (), log1⟩
        | none =>
          let log2 := log1 ++ (if verbose then ["RAW full failed; trying RAW half-size"] else [])
          let r2 := try_raw_half ext rb fs out_path quality
          match r2.2 with
          | some _ => Sum.inl ⟨r2.1, [Strategy.rawFull, Strategy.rawHalf], Except.ok (), log2⟩
          | none =>
            if mode = "raw" then
              Sum.inr ([Strategy.rawFull, Strategy.rawHalf],
                log2 ++ (if verbose then
                  ["RAW open/processing failed: RAW-only mode failed (full and half-size)."]
                  else []))
            else
              let log3 := log2 ++ (if verbose then ["RAW half failed; trying LibRaw thumbnail"] else [])
              let r3 := try_libraw_thumb ext rb fs out_path
              match r3.2 with
              | some _ =>
                Sum.inl ⟨r3.1, [Strategy.rawFull, Strategy.rawHalf, Strategy.librawThumb],
                  Except.ok (), log3⟩
              | none =>
                Sum.inr ([Strategy.rawFull, Strategy.rawHalf, Strategy.librawThumb], log3)
    else Sum.inr ([], log0)
  match phase1 with
  | Sum.inl done => done
  | Sum.inr (tr, lg) =>
    if mode = "auto" ∨ mode = "embedded" then
      let lg2 := lg ++ (if verbose then ["Trying embedded JPEG scan"] else [])
      match try_scan_embedded_jpeg fs in_path out_path with
      | Except.error e => ⟨fs, tr ++ [Strategy.scanEmbeddedJpeg], Except.error e, lg2⟩
      | Except.ok (fs2, some _) => ⟨fs2, tr ++ [Strategy.scanEmbeddedJpeg], Except.ok (), lg2⟩
      | Except.ok (fs2, none) =>
        if mode = "embedded" then
          ⟨fs2, tr ++ [Strategy.scanEmbeddedJpeg],
            Except.error "Embedded-only mode failed to locate a JPEG.", lg2⟩
        else
          ⟨fs2, tr ++ [Strategy.scanEmbeddedJpeg],
            Except.error "All conversion attempts failed.", lg2⟩
    else ⟨fs, tr, Except.error "All conversion attempts failed.", lg⟩

/-- Raw-handle behavior for the C1 witness: every rawpy step raises. -/
def rbAllFail : RawBehavior :=
  { postprocessFull := Except.error "decode failed"
    postprocessHalf := Except.error "decode failed"
    extractThumb := Except.error "no thumb" }

/-- External-library oracle for the C1 witness. -/
def extAllFail : Ext :=
  { imread := Except.ok rbAllFail
    encodeJPEG := fun img quality => quality :: img.flatten
    readExif := fun _ => ExifResult.error }

/-- One-file filesystem for the C1 witness: the input holds no JPEG markers. -/
def fsOneNef : FS := [(⟨["d"], "x", ".nef"⟩, [1, 2, 3])]

/-- Oracle for the C3 counterexample: the encoder records quality then the
flattened pixels, and EXIF reading reports a 180-degree rotation. -/
def extRot : Ext :=
  { imread := Except.error "unused"
    encodeJPEG := fun img quality => quality :: img.flatten
    readExif := fun _ => ExifResult.tags [("Image Orientation", "Rotated 180")] }

/-- Filesystem for the C3 counterexample: a `.nef` file sits exactly at the
output path with its suffix replaced, so the orientation probe fires. -/
def fsNefSibling : FS := [(⟨["d"], "x", ".nef"⟩, [0])]

/-- Raw-handle behavior for the C3 counterexample: the preview is a raw
pixel buffer. -/
def rbPixelThumb : RawBehavior :=
  { postprocessFull := Except.error "e"
    postprocessHalf := Except.error "e"
    extractThumb := Except.ok (ThumbData.rgbArray [[1, 2], [3, 4]]) }

/-! ### Batch driver (`main`) -/
/-- Output path for one discovered input, as built in the `main` loop:
`results_dir / nef.parent.relative_to(base_dir) / (nef.stem + ".jpg")`. -/
def outPathFor (base_dir : List String) (nef : FsPath) : FsPath :=
  { dir := base_dir ++ ["results"] ++ nef.dir.drop base_dir.length
    stem := nef.stem
    suffix := ".jpg" }

/-- The `for` loop of `main`: convert each discovered file in order,
threading the filesystem, catching any exception from the chain, and
counting successes and failures. Returns the final filesystem and the
`(ok, failed)` tally. The external-library oracle is per-file. -/
def runBatch (exts : FsPath → Ext) (quality : Nat) (mode : String)
    (verbose : Bool) (base_dir : List String) :
    FS → List FsPath → FS × Nat × Nat
  | fs, [] => (fs, 0, 0)
  | fs, nef :: rest =>
    let r := convert_nef_to_jpg (exts nef) fs nef (outPathFor base_dir nef)
      quality mode verbose
    let rec2 := runBatch exts quality mode verbose base_dir r.fs rest
    match r.outcome with
    | Except.ok _ => (rec2.1, rec2.2.1 + 1, rec2.2.2)
    | Except.error _ => (rec2.1, rec2.2.1, rec2.2.2 + 1)

/-- Exit code of `main`: `0` immediately when no files were found, else
`0 if failed == 0 else 1`. -/
def mainExit (exts : FsPath → Ext) (quality : Nat) (mode : String)
    (verbose : Bool) (base_dir : List String) (fs : FS)
    (files : List FsPath) : Nat :=
  if files = [] then 0
  else
    if (runBatch exts quality mode verbose base_dir fs files).2.2 = 0 then 0
    else 1

/-! ## Theorems -/

theorem digitVal_digitChar (d : Nat) (h : d < 10) :
    digitVal (Nat.digitChar d) = d := by
  interval_cases d <;> decide

theorem toDigitsCore_eq_natDigits :
    ∀ fuel n ds, n < fuel →
      Nat.toDigitsCore 10 fuel n ds = natDigits n ++ ds := by
  intro fuel
  induction fuel with
  | zero => intro n ds h; omega
  | succ fuel ih =>
    intro n ds h
    by_cases h10 : n < 10
    · have hdiv : n / 10 = 0 := Nat.div_eq_of_lt h10
      have hmod : n % 10 = n := Nat.mod_eq_of_lt h10
      simp [Nat.toDigitsCore, hdiv, hmod, natDigits, h10]
    · have hdiv : ¬ n / 10 = 0 := by
        intro h0
        have := (Nat.div_eq_zero_iff (by omega : 0 < 10)).mp h0
        omega
      have hlt : n / 10 < fuel := by
        have h1 : n / 10 < n := Nat.div_lt_self (by omega) (by omega)
        omega
      rw [natDigits]
      simp only [h10, if_false]
      simp [Nat.toDigitsCore, hdiv, ih (n / 10) _ hlt]

theorem digitsValFrom_natDigits (n : Nat) :
    ∀ a, digitsValFrom a (natDigits n) = a * 10 ^ (natDigits n).length + n := by
  induction n using Nat.strong_induction_on with
  | _ n ih =>
    intro a
    by_cases h10 : n < 10
    · rw [natDigits]
      simp only [h10, if_true]
      simp [digitsValFrom, digitVal_digitChar n h10]
      omega
    · have hlt : n / 10 < n := Nat.div_lt_self (by omega) (by omega)
      rw [natDigits]
      simp only [h10, if_false]
      simp only [digitsValFrom, List.foldl_append] at *
      rw [show ∀ x, List.foldl (fun b c => 10 * b + digitVal c) x
            [Nat.digitChar (n % 10)] = 10 * x + digitVal (Nat.digitChar (n % 10))
          from fun x => rfl]
      rw [ih (n / 10) hlt a]
      rw [digitVal_digitChar (n % 10) (Nat.mod_lt n (by omega))]
      rw [List.length_append]
      have hpow : 10 ^ ((natDigits (n / 10)).length + [Nat.digitChar (n % 10)].length)
          = 10 ^ (natDigits (n / 10)).length * 10 := by
        simp [pow_succ]
      rw [hpow]
      have := Nat.div_add_mod n 10
      ring_nf
      omega

theorem repr_injective : Function.Injective Nat.repr := by
  intro m n h
  have hm := toDigitsCore_eq_natDigits (m + 1) m [] (Nat.lt_succ_self m)
  have hn := toDigitsCore_eq_natDigits (n + 1) n [] (Nat.lt_succ_self n)
  have hdig : natDigits m = natDigits n := by
    have : (Nat.toDigits 10 m) = (Nat.toDigits 10 n) := by
      have hdata := congrArg String.data h
      simpa [Nat.repr, List.asString] using hdata
    rw [Nat.toDigits] at this
    rw [Nat.toDigits] at this
    rw [hm, hn] at this
    simpa using this
  have h1 := digitsValFrom_natDigits m 0
  have h2 := digitsValFrom_natDigits n 0
  rw [hdig] at h1
  rw [h2] at h1
  omega

theorem candidate_injective (base : FsPath) (suffix : String) :
    Function.Injective (candidate base suffix) := by
  intro i j h
  have hstem : base.stem ++ "_" ++ Nat.repr i = base.stem ++ "_" ++ Nat.repr j :=
    congrArg FsPath.stem h
  have hdata := congrArg String.data hstem
  simp only [String.data_append] at hdata
  have : (Nat.repr i).data = (Nat.repr j).data := by
    simpa using hdata
  exact repr_injective (by
    apply String.ext
    exact this)

/-- Among any `existing.length + 1` consecutive candidates, one is free:
the candidates are pairwise distinct, so they cannot all be members of
`existing`. -/
theorem candidate_free_within (existing : List FsPath) (base : FsPath)
    (suffix : String) (i : Nat) :
    ∃ j, j ≤ existing.length ∧ candidate base suffix (i + j) ∉ existing := by
  by_contra hcon
  push_neg at hcon
  have hmaps : ∀ j ∈ Finset.range (existing.length + 1),
      candidate base suffix (i + j) ∈ existing.toFinset := by
    intro j hj
    rw [List.mem_toFinset]
    exact hcon j (by simpa using Nat.lt_succ_iff.mp (Finset.mem_range.mp hj))
  have hcard : existing.toFinset.card < (Finset.range (existing.length + 1)).card := by
    have h1 : existing.toFinset.card ≤ existing.length := existing.toFinset_card_le
    simp only [Finset.card_range]
    omega
  obtain ⟨x, hx, y, hy, hxy, heq⟩ :=
    Finset.exists_ne_map_eq_of_card_lt_of_maps_to hcard hmaps
  have := candidate_injective base suffix heq
  exact hxy (by omega)

/-- The loop visits candidates in order and stops at the first free one,
provided one exists within the available fuel. -/
theorem uniquePathGo_spec (existing : List FsPath) (base : FsPath)
    (suffix : String) :
    ∀ fuel i, (∃ j, j < fuel ∧ candidate base suffix (i + j) ∉ existing) →
      ∃ j, j < fuel ∧
        uniquePathGo existing base suffix fuel i = candidate base suffix (i + j) ∧
        candidate base suffix (i + j) ∉ existing ∧
        ∀ k, k < j → candidate base suffix (i + k) ∈ existing := by
  intro fuel
  induction fuel with
  | zero =>
    intro i h
    obtain ⟨j, hj, _⟩ := h
    omega
  | succ fuel ih =>
    intro i h
    by_cases hc : candidate base suffix i ∈ existing
    · have hex : ∃ j, j < fuel ∧ candidate base suffix ((i + 1) + j) ∉ existing := by
        obtain ⟨j, hj, hfree⟩ := h
        match j, hj with
        | 0, _ => exact absurd hc (by simpa using hfree)
        | j+1, hj =>
          exact ⟨j, by omega, by
            have : (i + 1) + j = i + (j + 1) := by omega
            rw [this]
            exact hfree⟩
      obtain ⟨j, hj, heq, hfree, hall⟩ := ih (i + 1) hex
      refine ⟨j + 1, by omega, ?_, ?_, ?_⟩
      · simp only [uniquePathGo, hc, if_true]
        rw [heq]
        congr 1
        omega
      · have : i + (j + 1) = (i + 1) + j := by omega
        rw [this]
        exact hfree
      · intro k hk
        match k, hk with
        | 0, _ => simpa using hc
        | k+1, hk =>
          have : i + (k + 1) = (i + 1) + k := by omega
          rw [this]
          exact hall k (by omega)
    · refine ⟨0, by omega, ?_, by simpa using hc, fun k hk => by omega⟩
      simp only [uniquePathGo, hc, if_false]
      simp

/-- The path returned by `unique_path` never names a pre-existing file. -/
theorem unique_path_not_mem (existing : List FsPath) (path : FsPath) :
    unique_path existing path ∉ existing := by
  unfold unique_path
  by_cases hp : path ∈ existing
  · simp only [hp, if_true]
    obtain ⟨j, hj, hfree⟩ :=
      candidate_free_within existing (path.withSuffix "") path.suffix 1
    obtain ⟨j2, hj2, heq, hfree2, _⟩ :=
      uniquePathGo_spec existing (path.withSuffix "") path.suffix
        (existing.length + 1) 1 ⟨j, by omega, hfree⟩
    rw [heq]
    exact hfree2
  · rw [if_neg hp]
    exact hp

/-- C7: for every desired output path, `unique_path` returns the path itself
if no file exists there, and otherwise returns the path with `_i` inserted
before the extension for the smallest positive integer `i` (tested in order
`i = 1, 2, …`) at which no file exists; the returned path never names a
pre-existing file. -/
theorem claim_C7_unique_path (existing : List FsPath) (path : FsPath) :
    (path ∉ existing → unique_path existing path = path)
    ∧ (path ∈ existing →
        ∃ i, 1 ≤ i
          ∧ unique_path existing path = candidate (path.withSuffix "") path.suffix i
          ∧ candidate (path.withSuffix "") path.suffix i ∉ existing
          ∧ ∀ k, 1 ≤ k → k < i →
              candidate (path.withSuffix "") path.suffix k ∈ existing)
    ∧ unique_path existing path ∉ existing := by
  refine ⟨fun hp => by unfold unique_path; rw [if_neg hp], fun hp => ?_,
    unique_path_not_mem existing path⟩
  obtain ⟨j, hj, hfree⟩ :=
    candidate_free_within existing (path.withSuffix "") path.suffix 1
  obtain ⟨j2, hj2, heq, hfree2, hall⟩ :=
    uniquePathGo_spec existing (path.withSuffix "") path.suffix
      (existing.length + 1) 1 ⟨j, by omega, hfree⟩
  refine ⟨1 + j2, by omega, ?_, hfree2, ?_⟩
  · unfold unique_path
    rw [if_pos hp]
    exact heq
  · intro k h1k hklt
    have hk : k = 1 + (k - 1) := by omega
    rw [hk]
    exact hall (k - 1) (by omega)

/-- Witness for C7 at a concrete state: with `a.jpg` and `a_1.jpg` existing,
the resolution of `a.jpg` is the least free candidate. -/
theorem claim_C7_unique_path_witness :
    (⟨[], "a", ".jpg"⟩ : FsPath) ∈
        ([⟨[], "a", ".jpg"⟩, ⟨[], "a_1", ".jpg"⟩] : List FsPath)
    ∧ ∃ i, 1 ≤ i
        ∧ unique_path [⟨[], "a", ".jpg"⟩, ⟨[], "a_1", ".jpg"⟩] ⟨[], "a", ".jpg"⟩
            = candidate (FsPath.withSuffix ⟨[], "a", ".jpg"⟩ "") ".jpg" i
        ∧ candidate (FsPath.withSuffix ⟨[], "a", ".jpg"⟩ "") ".jpg" i ∉
            ([⟨[], "a", ".jpg"⟩, ⟨[], "a_1", ".jpg"⟩] : List FsPath)
        ∧ ∀ k, 1 ≤ k → k < i →
            candidate (FsPath.withSuffix ⟨[], "a", ".jpg"⟩ "") ".jpg" k ∈
              ([⟨[], "a", ".jpg"⟩, ⟨[], "a_1", ".jpg"⟩] : List FsPath) :=
  ⟨by decide,
    (claim_C7_unique_path [⟨[], "a", ".jpg"⟩, ⟨[], "a_1", ".jpg"⟩]
      ⟨[], "a", ".jpg"⟩).2.1 (by decide)⟩

/-- C8: resolving a path, materializing the result, and resolving again
yields two distinct non-colliding paths. `Twice in succession` is read the
way the pipeline uses the utility: the first resolved path is created on
disk before the second call, the starting state being otherwise unchanged
(`unique_path` itself is deterministic and effect-free). -/
theorem claim_C8_unique_path_twice (existing : List FsPath) (path : FsPath) :
    unique_path (unique_path existing path :: existing) path
        ≠ unique_path existing path
    ∧ unique_path existing path ∉ existing
    ∧ unique_path (unique_path existing path :: existing) path ∉ existing := by
  have h2 := unique_path_not_mem (unique_path existing path :: existing) path
  refine ⟨fun heq => h2 (by rw [heq]; exact List.mem_cons_self _ _),
    unique_path_not_mem existing path,
    fun hmem => h2 (List.mem_cons_of_mem _ hmem)⟩

theorem matchesAt_bound {data pat : List Nat} {j : Nat} (hpat : pat ≠ [])
    (h : matchesAt data pat j = true) : j + pat.length ≤ data.length := by
  have heq : (data.drop j).take pat.length = pat := by
    simpa [matchesAt] using h
  have hlen := congrArg List.length heq
  simp [List.length_take, List.length_drop] at hlen
  have hpos : 0 < pat.length := List.length_pos.mpr hpat
  omega

theorem findFrom_eq_some {p : Nat → Bool} :
    ∀ {fuel i j}, findFrom p fuel i = some j →
      p j = true ∧ i ≤ j ∧ j < i + fuel ∧ ∀ k, i ≤ k → k < j → p k = false := by
  intro fuel
  induction fuel with
  | zero => intro i j h; simp [findFrom] at h
  | succ fuel ih =>
    intro i j h
    by_cases hp : p i
    · simp [findFrom, hp] at h
      subst h
      exact ⟨hp, Nat.le_refl i, by omega, fun k h1 h2 => by omega⟩
    · simp only [findFrom, hp, if_false] at h
      obtain ⟨hj, hij, hlt, hmin⟩ := ih h
      refine ⟨hj, by omega, by omega, fun k h1 h2 => ?_⟩
      by_cases hk : k = i
      · subst hk
        exact Bool.not_eq_true _ |>.mp hp
      · exact hmin k (by omega) h2

theorem findFrom_eq_none {p : Nat → Bool} :
    ∀ {fuel i}, findFrom p fuel i = none →
      ∀ k, i ≤ k → k < i + fuel → p k = false := by
  intro fuel
  induction fuel with
  | zero => intro i _ k h1 h2; omega
  | succ fuel ih =>
    intro i h k h1 h2
    by_cases hp : p i
    · simp [findFrom, hp] at h
    · simp only [findFrom, hp, if_false] at h
      by_cases hk : k = i
      · subst hk
        exact Bool.not_eq_true _ |>.mp hp
      · exact ih h k (by omega) (by omega)

theorem findFrom_ne_none {p : Nat → Bool} :
    ∀ {fuel i j}, i ≤ j → j < i + fuel → p j = true →
      findFrom p fuel i ≠ none := by
  intro fuel i j h1 h2 h3 hnone
  have := findFrom_eq_none hnone j h1 h2
  rw [this] at h3
  exact Bool.false_ne_true h3

/-- Characterization of `data.find(pat, i)` for a nonempty pattern:
it returns exactly the least match offset at or after `i`. -/
theorem findSub_eq_some_iff {data pat : List Nat} (hpat : pat ≠ []) (i j : Nat) :
    findSub data pat i = some j ↔
      (matchesAt data pat j = true ∧ i ≤ j
        ∧ ∀ k, i ≤ k → k < j → matchesAt data pat k = false) := by
  constructor
  · intro h
    obtain ⟨hj, hij, _, hmin⟩ := findFrom_eq_some h
    exact ⟨hj, hij, hmin⟩
  · intro ⟨hj, hij, hmin⟩
    have hbound := matchesAt_bound hpat hj
    have hpos : 0 < pat.length := List.length_pos.mpr hpat
    have hwin : j < i + (data.length + 1 - i) := by omega
    cases hfs : findSub data pat i with
    | none => exact absurd hfs (findFrom_ne_none hij hwin hj)
    | some j2 =>
      obtain ⟨hj2, hij2, _, hmin2⟩ := findFrom_eq_some hfs
      by_cases hlt : j2 < j
      · rw [hmin j2 hij2 hlt] at hj2
        exact absurd hj2 Bool.false_ne_true
      · by_cases hgt : j < j2
        · rw [hmin2 j hij hgt] at hj
          exact absurd hj Bool.false_ne_true
        · have : j2 = j := by omega
          rw [this]

/-- With enough fuel, the start-collection loop gathers exactly the
start-marker occurrences at or after `i`, in increasing order. -/
theorem scanStarts_mem (data : List Nat) :
    ∀ fuel i, data.length + 1 ≤ i + fuel →
      ∀ s, s ∈ scanStarts data fuel i ↔ (i ≤ s ∧ matchesAt data soi s = true) := by
  intro fuel
  induction fuel with
  | zero =>
    intro i hfuel s
    simp only [scanStarts, List.not_mem_nil, false_iff]
    rintro ⟨his, hm⟩
    have := matchesAt_bound (by simp [soi]) hm
    simp [soi] at this
    omega
  | succ fuel ih =>
    intro i hfuel s
    cases hfs : findSub data soi i with
    | none =>
      have hnone := findFrom_eq_none hfs
      simp only [scanStarts, hfs, List.not_mem_nil, false_iff]
      rintro ⟨his, hm⟩
      have hb := matchesAt_bound (by simp [soi]) hm
      simp [soi] at hb
      have := hnone s his (by omega)
      rw [this] at hm
      exact Bool.false_ne_true hm
    | some j =>
      obtain ⟨hj, hij, _, hmin⟩ := findFrom_eq_some hfs
      have hbj := matchesAt_bound (by simp [soi] : soi ≠ []) hj
      simp only [scanStarts, hfs, List.mem_cons]
      rw [ih (j + 1) (by omega) s]
      constructor
      · rintro (rfl | ⟨hjs, hm⟩)
        · exact ⟨hij, hj⟩
        · exact ⟨by omega, hm⟩
      · rintro ⟨his, hm⟩
        by_cases hsj : s < j
        · rw [hmin s his hsj] at hm
          exact absurd hm Bool.false_ne_true
        · by_cases hse : s = j
          · exact Or.inl hse
          · exact Or.inr ⟨by omega, hm⟩

/-- Membership characterization of the recorded candidate ranges. -/
theorem scanCandidates_mem (data : List Nat) (s e : Nat) :
    (s, e) ∈ scanCandidates data ↔
      (matchesAt data soi s = true
        ∧ ∃ j, findSub data eoi (s + 2) = some j ∧ e = j + 2) := by
  unfold scanCandidates
  rw [List.mem_filterMap]
  constructor
  · rintro ⟨a, ha, hmap⟩
    cases hfs : findSub data eoi (a + 2) with
    | none =>
      rw [hfs] at hmap
      simp at hmap
    | some j =>
      rw [hfs] at hmap
      simp only [Option.map_some', Option.some.injEq, Prod.mk.injEq] at hmap
      obtain ⟨rfl, rfl⟩ := hmap
      have hm := ((scanStarts_mem data (data.length + 1) 0 (by omega) a).mp ha).2
      exact ⟨hm, j, hfs, by simp [eoi]⟩
  · rintro ⟨hm, j, hfs, rfl⟩
    refine ⟨s, (scanStarts_mem data (data.length + 1) 0 (by omega) s).mpr
      ⟨Nat.zero_le s, hm⟩, ?_⟩
    rw [hfs]
    simp [eoi]

theorem pyMaxBy_mem {α : Type} (f : α → Nat) :
    ∀ (ys : List α) (x : α), pyMaxBy f x ys ∈ x :: ys := by
  intro ys
  induction ys with
  | nil => intro x; simp [pyMaxBy]
  | cons y ys ih =>
    intro x
    by_cases h : f y > f x
    · simp only [pyMaxBy, h, if_true]
      have := ih y
      simp only [List.mem_cons] at this ⊢
      tauto
    · simp only [pyMaxBy, h, if_false]
      have := ih x
      simp only [List.mem_cons] at this ⊢
      tauto

theorem pyMaxBy_le {α : Type} (f : α → Nat) :
    ∀ (ys : List α) (x : α), ∀ a ∈ x :: ys, f a ≤ f (pyMaxBy f x ys) := by
  intro ys
  induction ys with
  | nil =>
    intro x a ha
    simp at ha
    subst ha
    simp [pyMaxBy]
  | cons y ys ih =>
    intro x a ha
    rw [List.mem_cons] at ha
    by_cases h : f y > f x
    · rw [show pyMaxBy f x (y :: ys) = pyMaxBy f y ys from by simp [pyMaxBy, h]]
      rcases ha with hax | hay
      · have hy := ih y y (List.mem_cons_self y ys)
        rw [hax]
        omega
      · exact ih y a hay
    · rw [show pyMaxBy f x (y :: ys) = pyMaxBy f x ys from by simp [pyMaxBy, h]]
      rcases ha with hax | hay
      · rw [hax]
        exact ih x x (List.mem_cons_self x ys)
      · rw [List.mem_cons] at hay
        rcases hay with hay | hmem
        · have hx := ih x x (List.mem_cons_self x ys)
          rw [hay]
          omega
        · exact ih x a (List.mem_cons_of_mem x hmem)

/-- C2: for every byte buffer, the scanner records as candidates exactly the
half-open ranges `[s, j + 2)` where `s` is an occurrence of the 3-byte
start-of-image marker and `j` is the first occurrence of the 2-byte
end-of-image marker searching forward from `s + 2`; it selects a candidate
of greatest byte length, and reports a plain `none` when no marker pair
exists. -/
theorem claim_C2_embedded_scanner (data : List Nat) :
    (∀ s e, (s, e) ∈ scanCandidates data ↔
        (matchesAt data soi s = true
          ∧ ∃ j, findSub data eoi (s + 2) = some j ∧ e = j + 2))
    ∧ (∀ i j, findSub data eoi i = some j ↔
        (matchesAt data eoi j = true ∧ i ≤ j
          ∧ ∀ k, i ≤ k → k < j → matchesAt data eoi k = false))
    ∧ (scanEmbedded data = none ↔ scanCandidates data = [])
    ∧ (∀ c, scanEmbedded data = some c →
        c ∈ scanCandidates data
          ∧ ∀ c2 ∈ scanCandidates data, c2.2 - c2.1 ≤ c.2 - c.1) := by
  refine ⟨scanCandidates_mem data,
    fun i j => findSub_eq_some_iff (by simp [eoi]) i j, ?_, ?_⟩
  · unfold scanEmbedded
    cases h : scanCandidates data with
    | nil => simp
    | cons c cs => simp
  · intro c hc
    unfold scanEmbedded at hc
    cases h : scanCandidates data with
    | nil =>
      rw [h] at hc
      simp at hc
    | cons c0 cs =>
      rw [h] at hc
      simp only [Option.some.injEq] at hc
      subst hc
      constructor
      · exact pyMaxBy_mem _ cs c0
      · intro c2 hc2
        exact pyMaxBy_le (fun p => p.2 - p.1) cs c0 c2 hc2

/-- Witness for C2: on the sample buffer the scanner picks the longer span. -/
theorem claim_C2_embedded_scanner_witness :
    scanEmbedded sampleScanData = some (5, 13)
    ∧ ((5, 13) ∈ scanCandidates sampleScanData
        ∧ ∀ c2 ∈ scanCandidates sampleScanData, c2.2 - c2.1 ≤ 13 - 5) :=
  ⟨by decide, (claim_C2_embedded_scanner sampleScanData).2.2.2 (5, 13) (by decide)⟩

/-- C5: the orientation corrector applies exactly the mapped transform for
each recognized code, leaves the image unchanged for any other or absent
code, and leaves it unchanged when metadata reading fails (no `.nef` file at
the probed path, or an `exifread` exception, yields no transform inside
`_save_jpeg_array`). -/
theorem claim_C5_orientation_corrector (img : Img) :
    applyOrientation (some "Rotated 180") img = rotate180 img
    ∧ applyOrientation (some "Rotated 90 CW") img = rotate270 img
    ∧ applyOrientation (some "Rotated 90 CCW") img = rotate90 img
    ∧ applyOrientation (some "Mirrored") img = flipLR img
    ∧ applyOrientation (some "Mirrored horizontal and rotated 90 CW") img
        = rotate270 (flipTB img)
    ∧ applyOrientation (some "Mirrored horizontal and rotated 90 CCW") img
        = rotate90 (flipTB img)
    ∧ applyOrientation (some "Mirrored vertical") img = flipTB img
    ∧ (∀ v, v ∉ recognizedOrientations → applyOrientation (some v) img = img)
    ∧ applyOrientation none img = img
    ∧ (∀ ext fs out_path b, FS.read fs (exifSourcePath out_path) = some b →
        ext.readExif b = ExifResult.error →
        exifOrientation ext fs out_path = none)
    ∧ (∀ ext fs out_path, FS.read fs (exifSourcePath out_path) = none →
        exifOrientation ext fs out_path = none)
    ∧ (∀ ext fs out_path arr quality, exifOrientation ext fs out_path = none →
        (save_jpeg_array ext fs arr out_path quality).1
          = FS.write fs (unique_path (FS.paths fs) (out_path.withSuffix ".jpg"))
              (ext.encodeJPEG arr quality)) := by
  refine ⟨rfl, rfl, rfl, rfl, rfl, rfl, rfl, ?_, rfl, ?_, ?_, ?_⟩
  · intro v hv
    simp only [recognizedOrientations, List.mem_cons, List.not_mem_nil, or_false,
      not_or] at hv
    obtain ⟨h1, h2, h3, h4, h5, h6, h7⟩ := hv
    simp only [applyOrientation, h1, h2, h3, h4, h5, h6, h7, if_false]
  · intro ext fs out_path b hread herr
    simp [exifOrientation, hread, herr]
  · intro ext fs out_path hread
    simp [exifOrientation, hread]
  · intro ext fs out_path arr quality hnone
    simp [save_jpeg_array, hnone, applyOrientation]

/-- Witness for C5: a mirrored 2×2 image is flipped horizontally, and an
unrecognized code leaves it untouched. -/
theorem claim_C5_orientation_corrector_witness :
    applyOrientation (some "Mirrored") [[1, 2], [3, 4]] = flipLR [[1, 2], [3, 4]]
    ∧ applyOrientation (some "Horizontal (normal)") [[1, 2], [3, 4]]
        = [[1, 2], [3, 4]] :=
  ⟨(claim_C5_orientation_corrector [[1, 2], [3, 4]]).2.2.2.1,
    (claim_C5_orientation_corrector [[1, 2], [3, 4]]).2.2.2.2.2.2.2.1
      "Horizontal (normal)" (by decide)⟩

theorem try_raw_full_of_error {rb : RawBehavior} {e : String}
    (h : rb.postprocessFull = Except.error e) (ext : Ext) (fs : FS)
    (out_path : FsPath) (quality : Nat) :
    try_raw_full ext rb fs out_path quality = (fs, none) := by
  simp [try_raw_full, h]

theorem try_raw_full_of_ok {rb : RawBehavior} {rgb : Img}
    (h : rb.postprocessFull = Except.ok rgb) (ext : Ext) (fs : FS)
    (out_path : FsPath) (quality : Nat) :
    try_raw_full ext rb fs out_path quality
      = ((save_jpeg_array ext fs rgb out_path quality).1,
         some (save_jpeg_array ext fs rgb out_path quality).2) := by
  simp [try_raw_full, h]

theorem try_raw_half_of_error {rb : RawBehavior} {e : String}
    (h : rb.postprocessHalf = Except.error e) (ext : Ext) (fs : FS)
    (out_path : FsPath) (quality : Nat) :
    try_raw_half ext rb fs out_path quality = (fs, none) := by
  simp [try_raw_half, h]

theorem try_raw_half_of_ok {rb : RawBehavior} {rgb : Img}
    (h : rb.postprocessHalf = Except.ok rgb) (ext : Ext) (fs : FS)
    (out_path : FsPath) (quality : Nat) :
    try_raw_half ext rb fs out_path quality
      = ((save_jpeg_array ext fs rgb out_path quality).1,
         some (save_jpeg_array ext fs rgb out_path quality).2) := by
  simp [try_raw_half, h]

theorem try_libraw_thumb_of_error {rb : RawBehavior} {e : String}
    (h : rb.extractThumb = Except.error e) (ext : Ext) (fs : FS)
    (out_path : FsPath) :
    try_libraw_thumb ext rb fs out_path = (fs, none) := by
  simp [try_libraw_thumb, h]

theorem isError_true_elim {α : Type} {x : Except String α}
    (h : isError x = true) : ∃ e, x = Except.error e := by
  cases x with
  | error e => exact ⟨e, rfl⟩
  | ok a => simp [isError] at h

theorem isError_false_elim {α : Type} {x : Except String α}
    (h : isError x = false) : ∃ a, x = Except.ok a := by
  cases x with
  | error e => simp [isError] at h
  | ok a => exact ⟨a, rfl⟩

theorem try_libraw_thumb_snd_of_ok {rb : RawBehavior}
    (h : isError rb.extractThumb = false) (ext : Ext) (fs : FS)
    (out_path : FsPath) :
    ∃ fs2 t, try_libraw_thumb ext rb fs out_path = (fs2, some t) := by
  obtain ⟨td, htd⟩ := isError_false_elim h
  cases td with
  | jpeg data =>
    refine ⟨FS.write fs (unique_path (FS.paths fs) (out_path.withSuffix ".jpg")) data,
      unique_path (FS.paths fs) (out_path.withSuffix ".jpg"), ?_⟩
    simp [try_libraw_thumb, htd]
  | rgbArray a =>
    refine ⟨(save_jpeg_array ext fs a out_path 90).1,
      (save_jpeg_array ext fs a out_path 90).2, ?_⟩
    simp [try_libraw_thumb, htd]

theorem try_scan_of_finds {fs : FS} {in_path : FsPath}
    (h : scanFinds fs in_path = true) (out_path : FsPath) :
    ∃ fs2 t, try_scan_embedded_jpeg fs in_path out_path
      = Except.ok (fs2, some t) := by
  cases hread : FS.read fs in_path with
  | none => simp [scanFinds, hread] at h
  | some data =>
    cases hs : scanEmbedded data with
    | none => simp [scanFinds, hread, hs] at h
    | some c =>
      refine ⟨FS.write fs (unique_path (FS.paths fs) (out_path.withSuffix ".jpg"))
        ((data.drop c.1).take (c.2 - c.1)),
        unique_path (FS.paths fs) (out_path.withSuffix ".jpg"), ?_⟩
      simp [try_scan_embedded_jpeg, hread, hs]

theorem try_scan_of_not_finds {fs : FS} {in_path : FsPath}
    (h : scanFinds fs in_path = false) (out_path : FsPath) :
    (∃ e, try_scan_embedded_jpeg fs in_path out_path = Except.error e)
    ∨ try_scan_embedded_jpeg fs in_path out_path = Except.ok (fs, none) := by
  cases hread : FS.read fs in_path with
  | none =>
    exact Or.inl ⟨"read_bytes failed", by simp [try_scan_embedded_jpeg, hread]⟩
  | some data =>
    cases hs : scanEmbedded data with
    | none => exact Or.inr (by simp [try_scan_embedded_jpeg, hread, hs])
    | some c => simp [scanFinds, hread, hs] at h

/-- C1: the strategy chain. In `auto` mode (with the raw container opening)
the four strategies are invoked in the fixed order full decode, half decode,
thumbnail, byte scan, short-circuiting on the first success; when the
container cannot be opened the three rawpy-based steps fail at the open and
only the byte scan is invoked. In `raw` mode the thumbnail and byte-scan
steps are never invoked and a failure of the half-size step is immediately
terminal. In `embedded` mode only the byte scan is invoked. -/
theorem claim_C1_strategy_chain (ext : Ext) (fs : FS) (in_path out_path : FsPath)
    (quality : Nat) (verbose : Bool) :
    (∀ rb, ext.imread = Except.ok rb →
      (isError rb.postprocessFull = false →
        (convert_nef_to_jpg ext fs in_path out_path quality "auto" verbose).trace
            = [Strategy.rawFull]
        ∧ (convert_nef_to_jpg ext fs in_path out_path quality "auto" verbose).outcome
            = Except.ok ())
      ∧ (isError rb.postprocessFull = true → isError rb.postprocessHalf = false →
        (convert_nef_to_jpg ext fs in_path out_path quality "auto" verbose).trace
            = [Strategy.rawFull, Strategy.rawHalf]
        ∧ (convert_nef_to_jpg ext fs in_path out_path quality "auto" verbose).outcome
            = Except.ok ())
      ∧ (isError rb.postprocessFull = true → isError rb.postprocessHalf = true →
          isError rb.extractThumb = false →
        (convert_nef_to_jpg ext fs in_path out_path quality "auto" verbose).trace
            = [Strategy.rawFull, Strategy.rawHalf, Strategy.librawThumb]
        ∧ (convert_nef_to_jpg ext fs in_path out_path quality "auto" verbose).outcome
            = Except.ok ())
      ∧ (isError rb.postprocessFull = true → isError rb.postprocessHalf = true →
          isError rb.extractThumb = true →
        (convert_nef_to_jpg ext fs in_path out_path quality "auto" verbose).trace
            = [Strategy.rawFull, Strategy.rawHalf, Strategy.librawThumb,
               Strategy.scanEmbeddedJpeg]
        ∧ ((convert_nef_to_jpg ext fs in_path out_path quality "auto" verbose).outcome
            = Except.ok () ↔ scanFinds fs in_path = true)))
    ∧ (∀ e, ext.imread = Except.error e →
        (convert_nef_to_jpg ext fs in_path out_path quality "auto" verbose).trace
            = [Strategy.scanEmbeddedJpeg]
        ∧ ((convert_nef_to_jpg ext fs in_path out_path quality "auto" verbose).outcome
            = Except.ok () ↔ scanFinds fs in_path = true))
    ∧ (Strategy.librawThumb ∉
        (convert_nef_to_jpg ext fs in_path out_path quality "raw" verbose).trace
      ∧ Strategy.scanEmbeddedJpeg ∉
        (convert_nef_to_jpg ext fs in_path out_path quality "raw" verbose).trace)
    ∧ (∀ rb, ext.imread = Except.ok rb → isError rb.postprocessFull = true →
        isError rb.postprocessHalf = true →
        (convert_nef_to_jpg ext fs in_path out_path quality "raw" verbose).trace
            = [Strategy.rawFull, Strategy.rawHalf]
        ∧ (convert_nef_to_jpg ext fs in_path out_path quality "raw" verbose).outcome
            = Except.error "All conversion attempts failed."
        ∧ (convert_nef_to_jpg ext fs in_path out_path quality "raw" verbose).fs = fs)
    ∧ ((convert_nef_to_jpg ext fs in_path out_path quality "embedded" verbose).trace
          = [Strategy.scanEmbeddedJpeg]
      ∧ ((convert_nef_to_jpg ext fs in_path out_path quality "embedded" verbose).outcome
          = Except.ok () ↔ scanFinds fs in_path = true)) := by
  refine ⟨?_, ?_, ?_, ?_, ?_⟩
  · intro rb him
    refine ⟨?_, ?_, ?_, ?_⟩
    · intro hfull
      obtain ⟨rgb, hrgb⟩ := isError_false_elim hfull
      constructor <;>
        simp [convert_nef_to_jpg, him, try_raw_full_of_ok hrgb]
    · intro hfull hhalf
      obtain ⟨e1, he1⟩ := isError_true_elim hfull
      obtain ⟨rgb, hrgb⟩ := isError_false_elim hhalf
      constructor <;>
        simp [convert_nef_to_jpg, him, try_raw_full_of_error he1,
          try_raw_half_of_ok hrgb]
    · intro hfull hhalf hthumb
      obtain ⟨e1, he1⟩ := isError_true_elim hfull
      obtain ⟨e2, he2⟩ := isError_true_elim hhalf
      obtain ⟨fs2, t, hth⟩ :=
        try_libraw_thumb_snd_of_ok hthumb ext fs (out_path.withSuffix ".jpg")
      constructor <;>
        simp [convert_nef_to_jpg, him, try_raw_full_of_error he1,
          try_raw_half_of_error he2, hth]
    · intro hfull hhalf hthumb
      obtain ⟨e1, he1⟩ := isError_true_elim hfull
      obtain ⟨e2, he2⟩ := isError_true_elim hhalf
      obtain ⟨e3, he3⟩ := isError_true_elim hthumb
      cases hsf : scanFinds fs in_path with
      | true =>
        obtain ⟨fs2, t, hscan⟩ := try_scan_of_finds hsf (out_path.withSuffix ".jpg")
        constructor <;>
          simp [convert_nef_to_jpg, him, try_raw_full_of_error he1,
            try_raw_half_of_error he2, try_libraw_thumb_of_error he3, hscan]
      | false =>
        rcases try_scan_of_not_finds hsf (out_path.withSuffix ".jpg") with
          ⟨e, hscan⟩ | hscan <;>
        · constructor <;>
            simp [convert_nef_to_jpg, him, try_raw_full_of_error he1,
              try_raw_half_of_error he2, try_libraw_thumb_of_error he3, hscan]
  · intro e him
    cases hsf : scanFinds fs in_path with
    | true =>
      obtain ⟨fs2, t, hscan⟩ := try_scan_of_finds hsf (out_path.withSuffix ".jpg")
      constructor <;> simp [convert_nef_to_jpg, him, hscan]
    | false =>
      rcases try_scan_of_not_finds hsf (out_path.withSuffix ".jpg") with
        ⟨e2, hscan⟩ | hscan <;>
      · constructor <;> simp [convert_nef_to_jpg, him, hscan]
  · cases him : ext.imread with
    | error e => constructor <;> simp [convert_nef_to_jpg, him]
    | ok rb =>
      cases hf : rb.postprocessFull with
      | ok rgb =>
        constructor <;> simp [convert_nef_to_jpg, him, try_raw_full_of_ok hf]
      | error e1 =>
        cases hh : rb.postprocessHalf with
        | ok rgb =>
          constructor <;>
            simp [convert_nef_to_jpg, him, try_raw_full_of_error hf,
              try_raw_half_of_ok hh]
        | error e2 =>
          constructor <;>
            simp [convert_nef_to_jpg, him, try_raw_full_of_error hf,
              try_raw_half_of_error hh]
  · intro rb him hfull hhalf
    obtain ⟨e1, he1⟩ := isError_true_elim hfull
    obtain ⟨e2, he2⟩ := isError_true_elim hhalf
    refine ⟨?_, ?_, ?_⟩ <;>
      simp [convert_nef_to_jpg, him, try_raw_full_of_error he1,
        try_raw_half_of_error he2]
  · cases hsf : scanFinds fs in_path with
    | true =>
      obtain ⟨fs2, t, hscan⟩ := try_scan_of_finds hsf (out_path.withSuffix ".jpg")
      constructor <;> simp [convert_nef_to_jpg, hscan]
    | false =>
      rcases try_scan_of_not_finds hsf (out_path.withSuffix ".jpg") with
        ⟨e2, hscan⟩ | hscan <;>
      · constructor <;> simp [convert_nef_to_jpg, hscan]

/-- Witness for C1: with every decode step failing in `auto` mode, all four
strategies run in order and the outcome matches what the byte scan finds. -/
theorem claim_C1_strategy_chain_witness :
    (convert_nef_to_jpg extAllFail fsOneNef ⟨["d"], "x", ".nef"⟩
        ⟨["d", "results"], "x", ".jpg"⟩ 90 "auto" false).trace
      = [Strategy.rawFull, Strategy.rawHalf, Strategy.librawThumb,
         Strategy.scanEmbeddedJpeg]
    ∧ ((convert_nef_to_jpg extAllFail fsOneNef ⟨["d"], "x", ".nef"⟩
        ⟨["d", "results"], "x", ".jpg"⟩ 90 "auto" false).outcome
      = Except.ok () ↔ scanFinds fsOneNef ⟨["d"], "x", ".nef"⟩ = true) :=
  ((claim_C1_strategy_chain extAllFail fsOneNef ⟨["d"], "x", ".nef"⟩
      ⟨["d", "results"], "x", ".jpg"⟩ 90 false).1 rbAllFail rfl).2.2.2
    rfl rfl rfl

/-! ### Thumbnail step claims (C3, C4) -/
/-- C3 (amended): a JPEG-encoded preview is written to the collision-avoided
target byte-for-byte, bypassing the encoder and the orientation logic
entirely; a raw pixel preview is encoded at fixed quality 90 through
`_save_jpeg_array`, which applies its orientation step (driven by the
output-derived `.nef` probe) to the pixels before encoding. -/
theorem claim_C3_thumbnail (ext : Ext) (rb : RawBehavior) (fs : FS)
    (out_path : FsPath) :
    (∀ data, rb.extractThumb = Except.ok (ThumbData.jpeg data) →
      try_libraw_thumb ext rb fs out_path
        = (FS.write fs (unique_path (FS.paths fs) (out_path.withSuffix ".jpg")) data,
           some (unique_path (FS.paths fs) (out_path.withSuffix ".jpg"))))
    ∧ (∀ a, rb.extractThumb = Except.ok (ThumbData.rgbArray a) →
      try_libraw_thumb ext rb fs out_path
        = (FS.write fs (unique_path (FS.paths fs) (out_path.withSuffix ".jpg"))
             (ext.encodeJPEG (applyOrientation (exifOrientation ext fs out_path) a) 90),
           some (unique_path (FS.paths fs) (out_path.withSuffix ".jpg")))) := by
  constructor
  · intro data h
    simp [try_libraw_thumb, h]
  · intro a h
    simp [try_libraw_thumb, h, save_jpeg_array]

/-- Witness for C3: a concrete JPEG preview is written verbatim. -/
theorem claim_C3_thumbnail_witness :
    try_libraw_thumb extAllFail
        { postprocessFull := Except.error "e"
          postprocessHalf := Except.error "e"
          extractThumb := Except.ok (ThumbData.jpeg [7, 8, 9]) }
        [] ⟨["d", "results"], "x", ".jpg"⟩
      = (FS.write [] (unique_path (FS.paths [])
           (FsPath.withSuffix ⟨["d", "results"], "x", ".jpg"⟩ ".jpg")) [7, 8, 9],
         some (unique_path (FS.paths [])
           (FsPath.withSuffix ⟨["d", "results"], "x", ".jpg"⟩ ".jpg"))) :=
  (claim_C3_thumbnail extAllFail
    { postprocessFull := Except.error "e"
      postprocessHalf := Except.error "e"
      extractThumb := Except.ok (ThumbData.jpeg [7, 8, 9]) }
    [] ⟨["d", "results"], "x", ".jpg"⟩).1 [7, 8, 9] rfl

/-- Counterexample to C3 as stated: with a `.nef` present at the
output-derived probe path, the raw pixel preview is rotated before encoding,
so the written bytes are not the plain quality-90 encoding of the buffer. -/
theorem claim_C3_counterexample :
    FS.read (try_libraw_thumb extRot rbPixelThumb fsNefSibling ⟨["d"], "x", ".jpg"⟩).1
        (unique_path (FS.paths fsNefSibling)
          (FsPath.withSuffix ⟨["d"], "x", ".jpg"⟩ ".jpg"))
      ≠ some (extRot.encodeJPEG [[1, 2], [3, 4]] 90) := by
  decide

/-- C4 (code bug): the EXIF orientation probe inside `_save_jpeg_array` is
`out_path.with_suffix(".nef")` — derived from the output location, not the
original raw input. At the batch layout paths (`photos/a.nef` converted
to `photos/results/a.jpg`) the probe names `photos/results/a.nef`, which is
not the input; with only the input on disk the orientation lookup yields
nothing and the pixels are encoded untransformed, whatever `exifread` would
have reported for the bytes of the input. -/
theorem claim_C4_exif_probe_output_derived :
    (∀ out_path : FsPath, exifSourcePath out_path = out_path.withSuffix ".nef")
    ∧ exifSourcePath ⟨["photos", "results"], "a", ".jpg"⟩
        = ⟨["photos", "results"], "a", ".nef"⟩
    ∧ (⟨["photos", "results"], "a", ".nef"⟩ : FsPath) ≠ ⟨["photos"], "a", ".nef"⟩
    ∧ (∀ ext : Ext,
        exifOrientation ext [(⟨["photos"], "a", ".nef"⟩, [1])]
          ⟨["photos", "results"], "a", ".jpg"⟩ = none)
    ∧ (∀ (ext : Ext) (arr : Img) (quality : Nat),
        (save_jpeg_array ext [(⟨["photos"], "a", ".nef"⟩, [1])] arr
            ⟨["photos", "results"], "a", ".jpg"⟩ quality).1
          = FS.write [(⟨["photos"], "a", ".nef"⟩, [1])]
              (unique_path (FS.paths [(⟨["photos"], "a", ".nef"⟩, [1])])
                (FsPath.withSuffix ⟨["photos", "results"], "a", ".jpg"⟩ ".jpg"))
              (ext.encodeJPEG arr quality)) :=
  ⟨fun _ => rfl, rfl, by decide, fun _ => rfl, fun _ _ _ => rfl⟩

/-- Witness for C4 at the concrete failing input. -/
theorem claim_C4_exif_probe_output_derived_witness :
    exifSourcePath ⟨["photos", "results"], "a", ".jpg"⟩
      = ⟨["photos", "results"], "a", ".nef"⟩ :=
  claim_C4_exif_probe_output_derived.2.1

/-- Witness for C8 at a concrete state. -/
theorem claim_C8_unique_path_twice_witness :
    unique_path
        (unique_path [] ⟨[], "a", ".jpg"⟩ :: []) ⟨[], "a", ".jpg"⟩
        ≠ unique_path [] ⟨[], "a", ".jpg"⟩
    ∧ unique_path [] ⟨[], "a", ".jpg"⟩ ∉ ([] : List FsPath)
    ∧ unique_path
        (unique_path [] ⟨[], "a", ".jpg"⟩ :: []) ⟨[], "a", ".jpg"⟩
        ∉ ([] : List FsPath) :=
  claim_C8_unique_path_twice [] ⟨[], "a", ".jpg"⟩

/-! ### Frame property: inputs are never deleted or mutated (C9) -/
theorem read_mem_paths {fs : FS} {p : FsPath} {b : Bytes}
    (h : FS.read fs p = some b) : p ∈ FS.paths fs := by
  unfold FS.read at h
  cases hf : fs.find? (fun e => e.1 == p) with
  | none => rw [hf] at h; simp at h
  | some e =>
    have hmem := List.mem_of_find?_eq_some hf
    have hpred := List.find?_some hf
    have hep : e.1 = p := by simpa using hpred
    exact hep ▸ List.mem_map_of_mem Prod.fst hmem

theorem read_write_ne {fs : FS} {t p : FsPath} (hne : t ≠ p) (b2 : Bytes) :
    FS.read (FS.write fs t b2) p = FS.read fs p := by
  have hb : (t == p) = false := by
    simp [hne]
  simp [FS.read, FS.write, List.find?, hb]

/-- Writing to a collision-avoided target never touches an existing file. -/
theorem read_write_fresh {fs : FS} {p : FsPath} {b : Bytes}
    (h : FS.read fs p = some b) (out : FsPath) (b2 : Bytes) :
    FS.read (FS.write fs (unique_path (FS.paths fs) out) b2) p = some b := by
  have hp : p ∈ FS.paths fs := read_mem_paths h
  have hne : unique_path (FS.paths fs) out ≠ p :=
    fun he => unique_path_not_mem (FS.paths fs) out (he ▸ hp)
  rw [read_write_ne hne]
  exact h

theorem save_jpeg_array_preserves {fs : FS} {p : FsPath} {b : Bytes}
    (h : FS.read fs p = some b) (ext : Ext) (arr : Img) (out_path : FsPath)
    (quality : Nat) :
    FS.read (save_jpeg_array ext fs arr out_path quality).1 p = some b :=
  read_write_fresh h _ _

theorem try_raw_full_preserves {fs : FS} {p : FsPath} {b : Bytes}
    (h : FS.read fs p = some b) (ext : Ext) (rb : RawBehavior)
    (out_path : FsPath) (quality : Nat) :
    FS.read (try_raw_full ext rb fs out_path quality).1 p = some b := by
  cases hf : rb.postprocessFull with
  | error e => rw [try_raw_full_of_error hf]; exact h
  | ok rgb => rw [try_raw_full_of_ok hf]; exact save_jpeg_array_preserves h ..

theorem try_raw_half_preserves {fs : FS} {p : FsPath} {b : Bytes}
    (h : FS.read fs p = some b) (ext : Ext) (rb : RawBehavior)
    (out_path : FsPath) (quality : Nat) :
    FS.read (try_raw_half ext rb fs out_path quality).1 p = some b := by
  cases hf : rb.postprocessHalf with
  | error e => rw [try_raw_half_of_error hf]; exact h
  | ok rgb => rw [try_raw_half_of_ok hf]; exact save_jpeg_array_preserves h ..

theorem try_libraw_thumb_preserves {fs : FS} {p : FsPath} {b : Bytes}
    (h : FS.read fs p = some b) (ext : Ext) (rb : RawBehavior)
    (out_path : FsPath) :
    FS.read (try_libraw_thumb ext rb fs out_path).1 p = some b := by
  cases hf : rb.extractThumb with
  | error e => rw [try_libraw_thumb_of_error hf]; exact h
  | ok td =>
    cases td with
    | jpeg data =>
      have : try_libraw_thumb ext rb fs out_path
          = (FS.write fs (unique_path (FS.paths fs) (out_path.withSuffix ".jpg")) data,
             some (unique_path (FS.paths fs) (out_path.withSuffix ".jpg"))) := by
        simp [try_libraw_thumb, hf]
      rw [this]
      exact read_write_fresh h _ _
    | rgbArray a =>
      have : (try_libraw_thumb ext rb fs out_path).1
          = (save_jpeg_array ext fs a out_path 90).1 := by
        simp [try_libraw_thumb, hf]
      rw [this]
      exact save_jpeg_array_preserves h ..

theorem try_scan_preserves {fs : FS} {p : FsPath} {b : Bytes}
    (h : FS.read fs p = some b) {in_path out_path : FsPath}
    {r : FS × Option FsPath}
    (hscan : try_scan_embedded_jpeg fs in_path out_path = Except.ok r) :
    FS.read r.1 p = some b := by
  cases hread : FS.read fs in_path with
  | none => simp [try_scan_embedded_jpeg, hread] at hscan
  | some data =>
    cases hs : scanEmbedded data with
    | none =>
      simp [try_scan_embedded_jpeg, hread, hs] at hscan
      rw [← hscan]
      exact h
    | some c =>
      simp [try_scan_embedded_jpeg, hread, hs] at hscan
      rw [← hscan]
      exact read_write_fresh h _ _

/-- C9: the pipeline is read-only with respect to existing files — in
particular the input raw file: any file readable before a conversion
attempt, in any mode and regardless of outcome, reads identically after
it (writes only ever go to collision-avoided fresh targets). -/
theorem claim_C9_input_never_mutated (ext : Ext) (fs : FS)
    (in_path out_path : FsPath) (quality : Nat) (mode : String)
    (verbose : Bool) (p : FsPath) (b : Bytes)
    (h : FS.read fs p = some b) :
    FS.read (convert_nef_to_jpg ext fs in_path out_path quality
        mode verbose).fs p = some b := by
  unfold convert_nef_to_jpg
  simp only []
  split
  · next done heq =>
    split at heq
    · split at heq
      · simp at heq
      · split at heq
        · injection heq with heq2
          rw [← heq2]
          exact try_raw_full_preserves h ..
        · split at heq
          · injection heq with heq2
            rw [← heq2]
            exact try_raw_half_preserves h ..
          · split at heq
            · simp at heq
            · split at heq
              · injection heq with heq2
                rw [← heq2]
                exact try_libraw_thumb_preserves h ..
              · simp at heq
    · simp at heq
  · next tr lg heq =>
    split
    · split
      · exact h
      · next fs2 t hscan => exact try_scan_preserves h hscan
      · next fs2 hscan =>
        split
        · exact try_scan_preserves h hscan
        · exact try_scan_preserves h hscan
    · exact h

/-- Witness for C9: a concrete failing conversion leaves the input
bytes in place. -/
theorem claim_C9_input_never_mutated_witness :
    FS.read fsOneNef ⟨["d"], "x", ".nef"⟩ = some [1, 2, 3]
    ∧ FS.read (convert_nef_to_jpg extAllFail fsOneNef ⟨["d"], "x", ".nef"⟩
        ⟨["d", "results"], "x", ".jpg"⟩ 90 "auto" false).fs
        ⟨["d"], "x", ".nef"⟩ = some [1, 2, 3] :=
  ⟨by decide,
    claim_C9_input_never_mutated extAllFail fsOneNef ⟨["d"], "x", ".nef"⟩
      ⟨["d", "results"], "x", ".jpg"⟩ 90 "auto" false ⟨["d"], "x", ".nef"⟩
      [1, 2, 3] (by decide)⟩

/-- C10: the `verbose` flag only influences console output. For every
input, filesystem state, quality and mode, the final filesystem, the
strategies attempted (in order) and the success/failure outcome are
identical with `verbose = true` and `verbose = false`. -/
theorem claim_C10_verbose_immaterial (ext : Ext) (fs : FS)
    (in_path out_path : FsPath) (quality : Nat) (mode : String) :
    (convert_nef_to_jpg ext fs in_path out_path quality mode true).fs
      = (convert_nef_to_jpg ext fs in_path out_path quality mode false).fs
    ∧ (convert_nef_to_jpg ext fs in_path out_path quality mode true).trace
      = (convert_nef_to_jpg ext fs in_path out_path quality mode false).trace
    ∧ (convert_nef_to_jpg ext fs in_path out_path quality mode true).outcome
      = (convert_nef_to_jpg ext fs in_path out_path quality mode false).outcome := by
  by_cases ha : mode = "auto"
  · subst ha
    cases him : ext.imread with
    | error e =>
      cases hscan : try_scan_embedded_jpeg fs in_path (out_path.withSuffix ".jpg") with
      | error e2 => simp [convert_nef_to_jpg, him, hscan]
      | ok r =>
        obtain ⟨fs2, ropt⟩ := r
        cases ropt with
        | some t => simp [convert_nef_to_jpg, him, hscan]
        | none => simp [convert_nef_to_jpg, him, hscan]
    | ok rb =>
      cases h1 : (try_raw_full ext rb fs (out_path.withSuffix ".jpg") quality).2 with
      | some t1 => simp [convert_nef_to_jpg, him, h1]
      | none =>
        cases h2 : (try_raw_half ext rb fs (out_path.withSuffix ".jpg") quality).2 with
        | some t2 => simp [convert_nef_to_jpg, him, h1, h2]
        | none =>
          cases h3 : (try_libraw_thumb ext rb fs (out_path.withSuffix ".jpg")).2 with
          | some t3 => simp [convert_nef_to_jpg, him, h1, h2, h3]
          | none =>
            cases hscan : try_scan_embedded_jpeg fs in_path
                (out_path.withSuffix ".jpg") with
            | error e2 => simp [convert_nef_to_jpg, him, h1, h2, h3, hscan]
            | ok r =>
              obtain ⟨fs2, ropt⟩ := r
              cases ropt with
              | some t => simp [convert_nef_to_jpg, him, h1, h2, h3, hscan]
              | none => simp [convert_nef_to_jpg, him, h1, h2, h3, hscan]
  · by_cases hr : mode = "raw"
    · subst hr
      cases him : ext.imread with
      | error e => simp [convert_nef_to_jpg, him]
      | ok rb =>
        cases h1 : (try_raw_full ext rb fs (out_path.withSuffix ".jpg") quality).2 with
        | some t1 => simp [convert_nef_to_jpg, him, h1]
        | none =>
          cases h2 : (try_raw_half ext rb fs (out_path.withSuffix ".jpg") quality).2 with
          | some t2 => simp [convert_nef_to_jpg, him, h1, h2]
          | none => simp [convert_nef_to_jpg, him, h1, h2]
    · by_cases he : mode = "embedded"
      · subst he
        cases hscan : try_scan_embedded_jpeg fs in_path (out_path.withSuffix ".jpg") with
        | error e2 => simp [convert_nef_to_jpg, hscan]
        | ok r =>
          obtain ⟨fs2, ropt⟩ := r
          cases ropt with
          | some t => simp [convert_nef_to_jpg, hscan]
          | none => simp [convert_nef_to_jpg, hscan]
      · simp [convert_nef_to_jpg, ha, hr, he]

/-- C6: after a batch run, `attempted = succeeded + failed` (every
discovered file is counted exactly once), the exit code is `0` iff
`failed = 0`, and an empty batch exits with `0`. -/
theorem claim_C6_batch_tally (exts : FsPath → Ext) (quality : Nat)
    (mode : String) (verbose : Bool) (base_dir : List String) (fs : FS)
    (files : List FsPath) :
    (runBatch exts quality mode verbose base_dir fs files).2.1
        + (runBatch exts quality mode verbose base_dir fs files).2.2
      = files.length
    ∧ (mainExit exts quality mode verbose base_dir fs files = 0 ↔
        (runBatch exts quality mode verbose base_dir fs files).2.2 = 0)
    ∧ (files = [] → mainExit exts quality mode verbose base_dir fs files = 0) := by
  refine ⟨?_, ?_, ?_⟩
  · induction files generalizing fs with
    | nil => simp [runBatch]
    | cons nef rest ih =>
      rw [runBatch]
      cases ho : (convert_nef_to_jpg (exts nef) fs nef (outPathFor base_dir nef)
          quality mode verbose).outcome with
      | ok u =>
        simp only [ho]
        have := ih ((convert_nef_to_jpg (exts nef) fs nef (outPathFor base_dir nef)
          quality mode verbose).fs)
        simp only [List.length_cons]
        omega
      | error e =>
        simp only [ho]
        have := ih ((convert_nef_to_jpg (exts nef) fs nef (outPathFor base_dir nef)
          quality mode verbose).fs)
        simp only [List.length_cons]
        omega
  · unfold mainExit
    by_cases hnil : files = []
    · subst hnil
      simp [runBatch]
    · rw [if_neg hnil]
      by_cases hfail : (runBatch exts quality mode verbose base_dir fs files).2.2 = 0
      · simp [hfail]
      · simp [hfail]
  · intro hnil
    subst hnil
    simp [mainExit]

/-- Witness for C6: a one-file batch whose conversion fails tallies
`ok = 0, failed = 1` and exits `1`; the empty batch exits `0`. -/
theorem claim_C6_batch_tally_witness :
    ((runBatch (fun _ => extAllFail) 90 "raw" false ["d"] fsOneNef
          [⟨["d"], "x", ".nef"⟩]).2.1
        + (runBatch (fun _ => extAllFail) 90 "raw" false ["d"] fsOneNef
          [⟨["d"], "x", ".nef"⟩]).2.2
      = 1)
    ∧ mainExit (fun _ => extAllFail) 90 "raw" false ["d"] fsOneNef [] = 0 :=
  ⟨(claim_C6_batch_tally (fun _ => extAllFail) 90 "raw" false ["d"] fsOneNef
      [⟨["d"], "x", ".nef"⟩]).1,
    (claim_C6_batch_tally (fun _ => extAllFail) 90 "raw" false ["d"] fsOneNef
      []).2.2 rfl⟩

end NefToJpg
